import Mathlib

/-!
# Verification of `maro/rl/policy/policy_manager.py`

A shallow embedding of the policy-manager subsystem: the abstract policy
manager (`AbsPolicyManager`: construction-time validation, `version`,
`get_state`), the local variant (`LocalPolicyManager.update`) and the
experience-accumulation and message-building logic shared by the
multi-process and multi-node variants (`MultiProcessPolicyManager.update`,
`MultiNodePolicyManager.update`, and the round-robin policy-to-trainer
assignment computed in their constructors).

Python dictionaries are modelled as insertion-ordered association lists
(`List (String × _)`); `defaultdict(int)` counters as total functions
`String → Nat` defaulting to 0; sets of policy names as `Finset String`.
Raised exceptions are modelled with `Except`, the error payload carrying
the object state at the moment of the raise (Python mutations performed
before the raise persist).  Logging and the `post_update` pass-through
callback have no effect on any manager state the claims mention and are
omitted.
-/

namespace PolicyManager

/-- Modelled from the spec: `ExperienceSet` (the Experience Batch) lives in
`maro.rl.experience`, outside the provided sources.  Per the spec it is an
ordered sequence of transition records with attribute `size` and an
order-preserving `extend`; only `size` is observable by the policy manager,
so the batch is modelled by its size. -/
structure ExperienceSet where
  size : Nat
deriving DecidableEq, Repr

/-- `ExperienceSet.extend(other)` appends, so sizes add. -/
def ExperienceSet.extend (a b : ExperienceSet) : ExperienceSet :=
  ⟨a.size + b.size⟩

/-- Modelled from the spec: the policy objects (`AbsCorePolicy`) are external
collaborators (`maro.rl.policy.AbsCorePolicy` is not among the provided
sources).  Per the spec the capability surface consumed by the manager is
`learn()`, `get_state()`, `set_state(state)`, `experience_store.put(batch)`
and `experience_store.size`.  `state` is the opaque policy-state snapshot
(`get_state()` returns it, `set_state` replaces it); `storeSize` is
`experience_store.size`, which accumulates the sizes of all batches ever
`put` (the spec's "minimum total accumulated experience (ever)" for warmup);
`isAbsCorePolicy` records whether the supplied object is an `AbsCorePolicy`
instance (the `isinstance` check at construction); `learnRaises` models a
`learn()` call that raises. -/
structure CorePolicy where
  state : Nat
  storeSize : Nat
  isAbsCorePolicy : Bool
  learnRaises : Bool
deriving DecidableEq, Repr

/-- `experience_store.put(batch)`: the store grows by the batch size. -/
def CorePolicy.put (p : CorePolicy) (exp : ExperienceSet) : CorePolicy :=
  { p with storeSize := p.storeSize + exp.size }

/-- State of a `LocalPolicyManager` (fields of `AbsPolicyManager.__init__`
plus `LocalPolicyManager._new_exp_counter`).  `policyDict` is the
insertion-ordered `policy_dict`; `updateTrigger` and `warmup` are the
per-policy thresholds; `newExpCounter` is the `defaultdict(int)`
`_new_exp_counter`; `history` is `_update_history`. -/
structure PMState where
  policyDict : List (String × CorePolicy)
  updateTrigger : String → Nat
  warmup : String → Nat
  newExpCounter : String → Nat
  history : List (Finset String)

/-- `AbsPolicyManager.version`: `len(self._update_history) - 1`. -/
def PMState.version (s : PMState) : Nat :=
  s.history.length - 1

/-- `set(policy_dict.keys())`. -/
def policyNames (pd : List (String × CorePolicy)) : Finset String :=
  pd.foldl (fun acc p => insert p.1 acc) ∅

/-- `AbsPolicyManager.__init__` for the local variant: validates that every
supplied policy is an `AbsCorePolicy` instance (raising `ValueError`
otherwise), applies the default trigger/warmup of 1 when none are supplied,
and initialises `_update_history = [set(policy_dict.keys())]` and the
experience counter.  `update_trigger`/`warmup` arguments defaulting to
`None` are modelled as `Option`s. -/
def mkLocalManager (pd : List (String × CorePolicy))
    (updateTrigger : Option (String → Nat)) (warmup : Option (String → Nat)) :
    Except String PMState :=
  if pd.all (fun p => p.2.isAbsCorePolicy) then
    Except.ok
      { policyDict := pd
        updateTrigger := updateTrigger.getD (fun _ => 1)
        warmup := warmup.getD (fun _ => 1)
        newExpCounter := fun _ => 0
        history := [policyNames pd] }
  else
    Except.error "Only AbsCorePolicy instances can be managed by a policy manager."

/-- The `updated` set accumulated by the loop in `AbsPolicyManager.get_state`:
`for version in range(cur_version + 1, len(self._update_history)): updated |= ...`.
`cur_version` is an `int` (it can be `-1`, the default when `version = 0`);
the model is faithful for `cur_version ≥ -1` (Python's negative list
indexing below `-1` is out of the spec's domain). -/
def updatedSince (s : PMState) (curVersion : Int) : Finset String :=
  (List.range s.history.length).foldl
    (fun acc (i : Nat) =>
      if curVersion + 1 ≤ (i : Int) then acc ∪ s.history.getD i ∅ else acc) ∅

/-- `AbsPolicyManager.get_state(cur_version=None)`: defaults `cur_version` to
`self.version - 1`, takes the union of the history entries strictly after
`cur_version`, and returns `{name: self.policy_dict[name].get_state() for
name in updated}` — modelled as the pair (key set, lookup function). -/
def get_state (s : PMState) (curVersion : Option Int) :
    Finset String × (String → Option Nat) :=
  let cv : Int := curVersion.getD ((s.version : Int) - 1)
  let updated := updatedSince s cv
  (updated, fun name =>
    if name ∈ updated then (s.policyDict.lookup name).map CorePolicy.state else none)

/-- Replace the entry for `name` in an association list (mutation of the
policy object held in `policy_dict`). -/
def setPolicy (pd : List (String × CorePolicy)) (name : String) (p : CorePolicy) :
    List (String × CorePolicy) :=
  pd.map (fun q => if q.1 = name then (q.1, p) else q)

/-- One iteration of the loop in `LocalPolicyManager.update`: look up the
policy (a `KeyError` on a name not in `policy_dict` is a raise), `put` the
batch into its experience store, bump `_new_exp_counter`, and if the
trigger and warmup conditions hold call `learn()` (which may raise),
add the name to `updated` and reset the counter.  `learnStep` is the opaque
state transition performed by a successful `learn()`.  The error payload is
the manager state at the moment of the raise. -/
def localUpdateStep (learnStep : Nat → Nat) (s : PMState) (updated : Finset String)
    (item : String × ExperienceSet) : Except PMState (PMState × Finset String) :=
  match s.policyDict.lookup item.1 with
  | none => Except.error s
  | some policy =>
    let policy1 := policy.put item.2
    let counter1 := s.newExpCounter item.1 + item.2.size
    let s1 : PMState :=
      { s with
        policyDict := setPolicy s.policyDict item.1 policy1
        newExpCounter := fun n => if n = item.1 then counter1 else s.newExpCounter n }
    if counter1 ≥ s.updateTrigger item.1 ∧
        policy1.storeSize ≥ s.warmup item.1 then
      if policy1.learnRaises then Except.error s1
      else
        Except.ok
          ({ s1 with
              policyDict := setPolicy s1.policyDict item.1
                { policy1 with state := learnStep policy1.state }
              newExpCounter := fun n => if n = item.1 then 0 else s1.newExpCounter n },
            insert item.1 updated)
    else Except.ok (s1, updated)

/-- The full loop of `LocalPolicyManager.update` over the items of
`exp_by_policy`. -/
def localUpdateLoop (learnStep : Nat → Nat) :
    PMState → Finset String → List (String × ExperienceSet) →
    Except PMState (PMState × Finset String)
  | s, updated, [] => Except.ok (s, updated)
  | s, updated, item :: rest =>
    match localUpdateStep learnStep s updated item with
    | Except.error e => Except.error e
    | Except.ok (s1, updated1) => localUpdateLoop learnStep s1 updated1 rest

/-- `LocalPolicyManager.update(exp_by_policy)`: run the loop, then append
`updated` to `_update_history` only when it is non-empty (`if updated:`). -/
def localUpdate (learnStep : Nat → Nat) (s : PMState)
    (expByPolicy : List (String × ExperienceSet)) : Except PMState PMState :=
  match localUpdateLoop learnStep s ∅ expByPolicy with
  | Except.error e => Except.error e
  | Except.ok (s1, updated) =>
    if updated = ∅ then Except.ok s1
    else Except.ok { s1 with history := s1.history ++ [updated] }

/-- `MultiProcessPolicyManager.__init__`: `for i, name in
enumerate(self.policy_dict): self._policy2trainer[name] =
f"TRAINER.{i % num_trainers}"`. -/
def mpPolicy2Trainer (names : List String) (numTrainers : Nat) :
    List (String × String) :=
  names.enum.map (fun p => (p.2, "TRAINER." ++ toString (p.1 % numTrainers)))

/-- The round-robin loop of `MultiNodePolicyManager.__init__`, with the
running `trainer_idx` made explicit: `trainer_id =
self._endpoint.workers[trainer_idx]; trainer_idx = (trainer_idx + 1) %
num_trainers`.  `workers[trainer_idx]` is a Python list index, modelled
with `get?` (`none` = `IndexError`). -/
def mnAssignLoop (workers : List String) (numTrainers : Nat) :
    List String → Nat → List (String × Option String)
  | [], _ => []
  | name :: rest, trainerIdx =>
    (name, workers.get? trainerIdx) ::
      mnAssignLoop workers numTrainers rest ((trainerIdx + 1) % numTrainers)

/-- `MultiNodePolicyManager.__init__`: the policy-to-trainer assignment,
starting from `trainer_idx = 0`. -/
def mnPolicy2Trainer (names : List String) (workers : List String)
    (numTrainers : Nat) : List (String × Option String) :=
  mnAssignLoop workers numTrainers names 0

/-- Insert into a `defaultdict(list)` multimap: append to the existing
key's list, or append a fresh entry at the end. -/
def multiMapAdd (m : List (String × List String)) (k v : String) :
    List (String × List String) :=
  if m.any (fun p => p.1 = k) then
    m.map (fun p => if p.1 = k then (p.1, p.2 ++ [v]) else p)
  else m ++ [(k, [v])]

/-- `self._trainer2policies` as built by both distributed constructors from
the policy-to-trainer assignment. -/
def trainer2PoliciesOf (p2t : List (String × String)) :
    List (String × List String) :=
  p2t.foldl (fun acc p => multiMapAdd acc p.2 p.1) []

/-- Set an association-list entry, or append it when absent
(`d[k] = v` on a Python dict). -/
def alistSet (l : List (String × ExperienceSet)) (k : String) (v : ExperienceSet) :
    List (String × ExperienceSet) :=
  if l.any (fun p => p.1 = k) then
    l.map (fun p => if p.1 = k then (p.1, v) else p)
  else l ++ [(k, v)]

/-- `d.pop(k)` on a Python dict: remove the entry. -/
def alistPop (l : List (String × ExperienceSet)) (k : String) :
    List (String × ExperienceSet) :=
  l.filter (fun p => p.1 ≠ k)

/-- Shared state of `MultiProcessPolicyManager` / `MultiNodePolicyManager`:
`policy_dict`, the thresholds, `_exp_cache` (a `defaultdict(ExperienceSet)`),
`_num_experiences_by_policy` (a `defaultdict(int)`), `_trainer2policies`
and `_update_history`.  The transport (pipes / `ManagerEndpoint`) carries
the messages modelled below. -/
structure DistState where
  policyDict : List (String × CorePolicy)
  updateTrigger : String → Nat
  warmup : String → Nat
  expCache : List (String × ExperienceSet)
  numExp : String → Nat
  trainer2policies : List (String × List String)
  history : List (Finset String)

/-- `version` of a distributed manager (`AbsPolicyManager.version`). -/
def DistState.version (s : DistState) : Nat :=
  s.history.length - 1

/-- One iteration of the accumulation loop shared by
`MultiProcessPolicyManager.update` and `MultiNodePolicyManager.update`:
bump `_num_experiences_by_policy`, extend `_exp_cache[policy_name]`
(default-constructed empty when absent), and when the cached size reaches
the trigger and the cumulative count reaches the warmup, move the cached
batch into `exp_to_send` (`dict.pop`) and mark the policy updated. -/
def distAccumStep (s : DistState × List (String × ExperienceSet) × Finset String)
    (item : String × ExperienceSet) :
    DistState × List (String × ExperienceSet) × Finset String :=
  let (st, toSend, updated) := s
  let (name, exp) := item
  let cached := ((st.expCache.lookup name).getD ⟨0⟩).extend exp
  let st1 : DistState :=
    { st with
      numExp := fun n => if n = name then st.numExp name + exp.size else st.numExp n
      expCache := alistSet st.expCache name cached }
  if cached.size ≥ st.updateTrigger name ∧ st1.numExp name ≥ st.warmup name then
    ({ st1 with expCache := alistPop st1.expCache name },
      toSend ++ [(name, cached)], insert name updated)
  else (st1, toSend, updated)

/-- The per-trainer dispatch of both distributed `update` methods:
`{name: exp_to_send[name] for name in self._trainer2policies[trainer_id]}`.
The comprehension indexes the plain dict `exp_to_send` with EVERY policy
assigned to the trainer; a name with no flushed batch raises `KeyError`. -/
def buildTrainerMessages (t2p : List (String × List String))
    (toSend : List (String × ExperienceSet)) :
    Except String (List (String × List (String × ExperienceSet))) :=
  t2p.mapM (fun p =>
    (p.2.mapM (fun name =>
      match toSend.lookup name with
      | some e => Except.ok (name, e)
      | none => Except.error ("KeyError: " ++ name))).map (fun l => (p.1, l)))

/-- `self.policy_dict[policy_name].set_state(policy_state)`. -/
def setPolicyState (pd : List (String × CorePolicy)) (name : String) (st : Nat) :
    List (String × CorePolicy) :=
  pd.map (fun q => if q.1 = name then (q.1, { q.2 with state := st }) else q)

/-- Modelled from the spec: the trainer replies (`trainer_process` /
the remote trainer node are outside the provided sources).  Per the spec a
trainer replies with the updated state of exactly the policies it received
batches for; `replies trainer_id` is the `result["policy"]` /
`result["policy_state"]` mapping of that trainer's reply, applied via
`set_state` in the receive loop of both distributed `update` methods. -/
def applyReplies (pd : List (String × CorePolicy))
    (t2p : List (String × List String)) (replies : String → List (String × Nat)) :
    List (String × CorePolicy) :=
  t2p.foldl (fun pd p => (replies p.1).foldl (fun pd r => setPolicyState pd r.1 r.2) pd) pd

/-- `MultiProcessPolicyManager.update` and `MultiNodePolicyManager.update`
(their bodies are identical apart from the transport: pipe send/recv with
`"type": "train"` vs. endpoint send/receive with `MsgTag.LEARN`): run the
accumulation loop, build one message per trainer (which can raise
`KeyError`, see `buildTrainerMessages`), apply the trainer replies via
`set_state`, and append `updated` to `_update_history` when non-empty. -/
def distUpdate (replies : String → List (String × Nat)) (s : DistState)
    (expByPolicy : List (String × ExperienceSet)) : Except String DistState :=
  match expByPolicy.foldl distAccumStep (s, [], ∅) with
  | (s1, toSend, updated) =>
    match buildTrainerMessages s1.trainer2policies toSend with
    | Except.error e => Except.error e
    | Except.ok _msgs =>
      let s2 : DistState :=
        { s1 with policyDict := applyReplies s1.policyDict s1.trainer2policies replies }
      if updated = ∅ then Except.ok s2
      else Except.ok { s2 with history := s2.history ++ [updated] }

/-- `AbsPolicyManager.get_state` translated with the state threaded
explicitly and a trace of messages sent to trainers: the body only reads
`self.version`, `self._update_history` and `self.policy_dict`, writes
nothing, and sends nothing. -/
def get_state_run (curVersion : Option Int) (s : PMState) :
    (Finset String × (String → Option Nat)) × PMState × List String :=
  let cv : Int :=
    match curVersion with
    | none => (s.version : Int) - 1
    | some v => v
  let updated :=
    (List.range s.history.length).foldl
      (fun acc (i : Nat) =>
        if cv + 1 ≤ (i : Int) then acc ∪ s.history.getD i ∅ else acc) ∅
  ((updated, fun name =>
      if name ∈ updated then (s.policyDict.lookup name).map CorePolicy.state else none),
    s, ([] : List String))

/-! ## Helper lemmas -/

lemma foldl_union_mem (p : Nat → Prop) [DecidablePred p] (f : Nat → Finset String) :
    ∀ (l : List Nat) (acc : Finset String) (a : String),
      (a ∈ l.foldl (fun acc i => if p i then acc ∪ f i else acc) acc ↔
        a ∈ acc ∨ ∃ i ∈ l, p i ∧ a ∈ f i) := by
  intro l
  induction l with
  | nil => simp
  | cons hd tl ih =>
    intro acc a
    simp only [List.foldl_cons, ih, List.mem_cons]
    by_cases hp : p hd
    · simp only [if_pos hp, Finset.mem_union]
      constructor
      · rintro (⟨h | h⟩ | ⟨i, hi, hpi, hai⟩)
        · exact Or.inl h
        · exact Or.inr ⟨hd, Or.inl rfl, hp, h⟩
        · exact Or.inr ⟨i, Or.inr hi, hpi, hai⟩
      · rintro (h | ⟨i, hi | hi, hpi, hai⟩)
        · exact Or.inl (Or.inl h)
        · exact Or.inl (Or.inr (hi ▸ hai))
        · exact Or.inr ⟨i, hi, hpi, hai⟩
    · simp only [if_neg hp]
      constructor
      · rintro (h | ⟨i, hi, hpi, hai⟩)
        · exact Or.inl h
        · exact Or.inr ⟨i, Or.inr hi, hpi, hai⟩
      · rintro (h | ⟨i, hi | hi, hpi, hai⟩)
        · exact Or.inl h
        · exact absurd (hi ▸ hpi) hp
        · exact Or.inr ⟨i, hi, hpi, hai⟩

lemma mem_updatedSince (s : PMState) (cv : Int) (a : String) :
    a ∈ updatedSince s cv ↔
      ∃ i, i < s.history.length ∧ cv + 1 ≤ (i : Int) ∧ a ∈ s.history.getD i ∅ := by
  unfold updatedSince
  rw [foldl_union_mem (fun i => cv + 1 ≤ (i : Int)) (fun i => s.history.getD i ∅)]
  simp [List.mem_range, and_assoc]

/-- The history projection of a result of the local-update loop. -/
def resultHistory : Except PMState (PMState × Finset String) → List (Finset String)
  | Except.error e => e.history
  | Except.ok (t, _) => t.history

lemma localUpdateStep_history (f : Nat → Nat) (s : PMState) (updated : Finset String)
    (item : String × ExperienceSet) :
    resultHistory (localUpdateStep f s updated item) = s.history := by
  unfold localUpdateStep
  rcases s.policyDict.lookup item.1 with _ | policy <;> dsimp only
  · rfl
  · split_ifs <;> rfl

lemma localUpdateLoop_history (f : Nat → Nat) :
    ∀ (exps : List (String × ExperienceSet)) (s : PMState) (updated : Finset String),
      resultHistory (localUpdateLoop f s updated exps) = s.history := by
  intro exps
  induction exps with
  | nil => intro s updated; rfl
  | cons item rest ih =>
    intro s updated
    unfold localUpdateLoop
    rcases hstep : localUpdateStep f s updated item with e | ⟨s1, u1⟩ <;> dsimp only
    · have := localUpdateStep_history f s updated item
      rw [hstep] at this
      exact this
    · have hs1 : s1.history = s.history := by
        have := localUpdateStep_history f s updated item
        rw [hstep] at this
        exact this
      rw [ih s1 u1, hs1]

/-! ## Concrete fixtures -/

/-- A trainable policy whose `learn()` succeeds. -/
def polA : CorePolicy := ⟨0, 0, true, false⟩

/-- A trainable policy whose `learn()` raises. -/
def polBad : CorePolicy := ⟨0, 0, true, true⟩

/-- The state of `LocalPolicyManager({"A": polA})` right after construction
(trigger and warmup default to 1, `_update_history = [{"A"}]`). -/
def exState : PMState :=
  { policyDict := [("A", polA)]
    updateTrigger := fun _ => 1
    warmup := fun _ => 1
    newExpCounter := fun _ => 0
    history := [policyNames [("A", polA)]] }

/-- The state of `LocalPolicyManager({"A": polBad})` right after
construction. -/
def exStateBad : PMState :=
  { policyDict := [("A", polBad)]
    updateTrigger := fun _ => 1
    warmup := fun _ => 1
    newExpCounter := fun _ => 0
    history := [policyNames [("A", polBad)]] }

/-- The version carried by an `update` result that raised (`none` when the
call returned normally). -/
def errVersion : Except PMState PMState → Option Nat
  | Except.error e => some e.version
  | Except.ok _ => none

/-! ## C1 -/

/-- C1 counterexample: on a freshly constructed local manager holding one
policy, the first `update()` call with an empty experience mapping leaves
`version` at 0, not 1: the code appends to `_update_history` only when the
`updated` set is non-empty, so an empty round is not counted. -/
theorem version_unchanged_on_empty_update_round :
    mkLocalManager [("A", polA)] none none = Except.ok exState ∧
    (localUpdate Nat.succ exState []).map PMState.version = Except.ok 0 ∧
    (0 : Nat) ≠ 1 :=
  ⟨rfl, rfl, by decide⟩

/-- C1 (amended): `version` increases by exactly one per `update()` call in
which at least one policy updated (non-empty `updated` set), and is
unchanged by an `update()` call in which no policy updated. -/
theorem version_increments_iff_some_policy_updated (f : Nat → Nat) (s : PMState)
    (exps : List (String × ExperienceSet)) (t : PMState) (upd : Finset String)
    (hlen : 0 < s.history.length)
    (hloop : localUpdateLoop f s ∅ exps = Except.ok (t, upd)) :
    (localUpdate f s exps).map PMState.version =
      Except.ok (if upd = ∅ then s.version else s.version + 1) := by
  have hhist : t.history = s.history := by
    have h := localUpdateLoop_history f exps s ∅
    rw [hloop] at h
    exact h
  unfold localUpdate
  rw [hloop]
  dsimp only
  split_ifs with hupd
  · simp [Except.map, PMState.version, hhist]
  · simp only [Except.map, PMState.version, List.length_append, List.length_singleton,
      hhist]
    congr 1
    omega

/-- Witness for `version_increments_iff_some_policy_updated`: a round that
does update policy A takes the fresh manager from version 0 to version 1. -/
theorem version_increments_iff_some_policy_updated_witness :
    (localUpdate Nat.succ exState [("A", ⟨2⟩)]).map PMState.version = Except.ok 1 := by
  have h := version_increments_iff_some_policy_updated Nat.succ exState [("A", ⟨2⟩)]
    _ _ (by decide) rfl
  simpa using h

/-! ## C7 -/

/-- C7: in the local variant, a `learn()` call that raises inside `update()`
propagates (the call returns the raised error) and no version-history entry
is committed for the aborted round: both the history and `version` are
unchanged from their values before the `update()` call. -/
theorem learn_failure_propagates_and_preserves_version (f : Nat → Nat)
    (s : PMState) (exps : List (String × ExperienceSet)) (e : PMState)
    (he : localUpdate f s exps = Except.error e) :
    e.history = s.history ∧ e.version = s.version := by
  have hh : e.history = s.history := by
    unfold localUpdate at he
    rcases hloop : localUpdateLoop f s ∅ exps with e' | ⟨s1, upd⟩ <;> rw [hloop] at he
    · have h := localUpdateLoop_history f exps s ∅
      rw [hloop] at h
      injection he with h'
      rw [← h']
      exact h
    · dsimp only at he
      split_ifs at he
  exact ⟨hh, by unfold PMState.version; rw [hh]⟩

/-- Witness for `learn_failure_propagates_and_preserves_version`: a policy
whose `learn()` raises aborts the round with the version still 0. -/
theorem learn_failure_propagates_and_preserves_version_witness :
    errVersion (localUpdate Nat.succ exStateBad [("A", ⟨1⟩)]) =
      some exStateBad.version := by
  have h := learn_failure_propagates_and_preserves_version Nat.succ exStateBad
    [("A", ⟨1⟩)] _ rfl
  exact congrArg some h.2

/-! ## C4 -/

/-- Manager state reached after round 1 updates {A}, round 2 updates {B},
round 3 updates {A}; policy A's current (latest) state is 7, policy B's is 3. -/
def c4State : PMState :=
  { policyDict := [("A", ⟨7, 30, true, false⟩), ("B", ⟨3, 20, true, false⟩)]
    updateTrigger := fun _ => 1
    warmup := fun _ => 1
    newExpCounter := fun _ => 0
    history := [policyNames [("A", ⟨7, 30, true, false⟩), ("B", ⟨3, 20, true, false⟩)],
      insert "A" ∅, insert "B" ∅, insert "A" ∅] }

/-- C4: `get_state(since_version)` returns exactly the union of the
policy-name sets recorded in version-history rounds `since_version + 1`
through the current version, each name mapped to that policy's current
(latest) state (`-1 ≤ cv` is the domain on which the embedding is faithful
to Python's `range(cur_version + 1, len(history))`). -/
theorem get_state_union_correct (s : PMState) (cv : Int) (hcv : -1 ≤ cv) :
    (∀ a, a ∈ (get_state s (some cv)).1 ↔
      ∃ i, i ≤ s.version ∧ cv + 1 ≤ (i : Int) ∧ a ∈ s.history.getD i ∅) ∧
    (∀ name, name ∈ (get_state s (some cv)).1 →
      (get_state s (some cv)).2 name = (s.policyDict.lookup name).map CorePolicy.state) := by
  have h1 : (get_state s (some cv)).1 = updatedSince s cv := rfl
  constructor
  · intro a
    rw [h1, mem_updatedSince]
    unfold PMState.version
    constructor
    · rintro ⟨i, hi, hcv1, ha⟩
      exact ⟨i, by omega, hcv1, ha⟩
    · rintro ⟨i, hi, hcv1, ha⟩
      by_cases hlt : i < s.history.length
      · exact ⟨i, hlt, hcv1, ha⟩
      · rw [List.getD_eq_default _ _ (by omega)] at ha
        exact absurd ha (Finset.not_mem_empty a)
  · intro name hmem
    have hmem' : name ∈ updatedSince s cv := h1 ▸ hmem
    simp [get_state, hmem']

/-- Witness for `get_state_union_correct`: in `c4State` (rounds {A}, {B},
{A}), `get_state(0)` contains B, `get_state(2)` does not contain B, and
`get_state(2)` maps A to its latest state 7. -/
theorem get_state_union_correct_witness :
    ("B" ∈ (get_state c4State (some 0)).1 ↔
      ∃ i, i ≤ c4State.version ∧ (0 : Int) + 1 ≤ (i : Int) ∧
        "B" ∈ c4State.history.getD i ∅) ∧
    "B" ∉ (get_state c4State (some 2)).1 ∧
    (get_state c4State (some 2)).2 "A" = some 7 := by
  refine ⟨(get_state_union_correct c4State 0 (by norm_num)).1 "B", by decide, ?_⟩
  have h := (get_state_union_correct c4State 2 (by norm_num)).2 "A" (by decide)
  simpa using h

/-! ## C5 -/

/-- C5: `get_state` called without an argument defaults `cur_version` to
`version - 1`, so the result equals `get_state(version - 1)` and its key
set is exactly the most recent version-history round. -/
theorem get_state_default_is_last_round (s : PMState) (h : s.history ≠ []) :
    get_state s none = get_state s (some ((s.version : Int) - 1)) ∧
    (get_state s none).1 = s.history.getD s.version ∅ := by
  have hlen : 0 < s.history.length := List.length_pos.mpr h
  refine ⟨rfl, ?_⟩
  have h1 : (get_state s none).1 = updatedSince s ((s.version : Int) - 1) := rfl
  rw [h1]
  ext a
  rw [mem_updatedSince]
  unfold PMState.version
  constructor
  · rintro ⟨i, hi, hcv, ha⟩
    have hieq : i = s.history.length - 1 := by omega
    rwa [hieq] at ha
  · intro ha
    exact ⟨s.history.length - 1, by omega, by omega, ha⟩

/-- Witness for `get_state_default_is_last_round`: in `c4State` the default
`get_state()` returns exactly round 3's set {A}. -/
theorem get_state_default_is_last_round_witness :
    (get_state c4State none).1 = c4State.history.getD c4State.version ∅ :=
  (get_state_default_is_last_round c4State (by decide)).2

/-! ## C10 -/

lemma get_state_none_of_singleton (s : PMState) (e : Finset String)
    (hhist : s.history = [e]) :
    (get_state s none).1 = e ∧
    ∀ name ∈ e, (get_state s none).2 name =
      (s.policyDict.lookup name).map CorePolicy.state := by
  have hv : s.version = 0 := by
    unfold PMState.version
    rw [hhist]
    simp
  have hcv : ((s.version : Int) - 1) = -1 := by
    rw [hv]
    rfl
  have hmem : ∀ a, a ∈ updatedSince s (-1) ↔ a ∈ e := by
    intro a
    rw [mem_updatedSince]
    constructor
    · rintro ⟨i, hi, _, ha⟩
      rw [hhist] at hi ha
      have hi0 : i = 0 := by simpa using hi
      subst hi0
      simpa using ha
    · intro ha
      refine ⟨0, ?_, by norm_num, ?_⟩
      · rw [hhist]
        simp
      · rw [hhist]
        simpa using ha
  have hfst : (get_state s none).1 = updatedSince s ((s.version : Int) - 1) := rfl
  have hfst' : (get_state s none).1 = e := by
    rw [hfst, hcv]
    ext a
    exact hmem a
  refine ⟨hfst', ?_⟩
  intro name hname
  have hmem' : name ∈ updatedSince s ((s.version : Int) - 1) := by
    rw [hcv, hmem]
    exact hname
  have hsnd : (get_state s none).2 name =
      if name ∈ updatedSince s ((s.version : Int) - 1) then
        (s.policyDict.lookup name).map CorePolicy.state
      else none := rfl
  rw [hsnd, if_pos hmem']

/-- C10: immediately after construction, a manager has `version = 0`, a
version history holding the single entry `set(policy_dict.keys())`, and
`get_state()` with the default argument (`cur_version = -1`) returns the
current state of every managed policy. -/
theorem fresh_manager_state (pd : List (String × CorePolicy))
    (hall : ∀ p ∈ pd, p.2.isAbsCorePolicy = true) (s : PMState)
    (hs : mkLocalManager pd none none = Except.ok s) :
    s.version = 0 ∧ s.history = [policyNames pd] ∧
    (get_state s none).1 = policyNames pd ∧
    (∀ name ∈ policyNames pd,
      (get_state s none).2 name = (pd.lookup name).map CorePolicy.state) := by
  unfold mkLocalManager at hs
  rw [if_pos (by rw [List.all_eq_true]; intro p hp; simpa using hall p hp)] at hs
  injection hs with hs
  have hhist : s.history = [policyNames pd] := by rw [← hs]
  have hpd : s.policyDict = pd := by rw [← hs]
  have h := get_state_none_of_singleton s (policyNames pd) hhist
  refine ⟨?_, hhist, h.1, ?_⟩
  · unfold PMState.version
    rw [hhist]
    simp
  · intro name hname
    rw [← hpd]
    exact h.2 name hname

/-- Witness for `fresh_manager_state`: the fresh one-policy manager
`exState` has version 0 and `get_state()` returns A's current state 0. -/
theorem fresh_manager_state_witness :
    exState.version = 0 ∧ (get_state exState none).1 = policyNames [("A", polA)] ∧
    (get_state exState none).2 "A" = some 0 := by
  have h := fresh_manager_state [("A", polA)] (by decide) exState rfl
  refine ⟨h.1, h.2.2.1, ?_⟩
  have h2 := h.2.2.2 "A" (by decide)
  simpa using h2

/-! ## C9 -/

/-- C9: `get_state` is a pure read of locally cached state: translated with
the state and the trainer-message trace explicit (`get_state_run`), it
returns the manager state unchanged, sends no trainer message, and its
result is the pure function `get_state` of the input state. -/
theorem get_state_is_pure_read (curVersion : Option Int) (s : PMState) :
    (get_state_run curVersion s).2.1 = s ∧
    (get_state_run curVersion s).2.2 = [] ∧
    (get_state_run curVersion s).1 = get_state s curVersion := by
  cases curVersion <;> exact ⟨rfl, rfl, rfl⟩

/-! ## C8 -/

/-- `MultiProcessPolicyManager.__init__`: the shared
`AbsPolicyManager.__init__` (validation, thresholds, initial history)
followed by the round-robin construction of `_trainer2policies`.
The trainer processes themselves are external. -/
def mkMultiProcessManager (pd : List (String × CorePolicy)) (numTrainers : Nat)
    (updateTrigger : Option (String → Nat)) (warmup : Option (String → Nat)) :
    Except String DistState :=
  if pd.all (fun p => p.2.isAbsCorePolicy) then
    Except.ok
      { policyDict := pd
        updateTrigger := updateTrigger.getD (fun _ => 1)
        warmup := warmup.getD (fun _ => 1)
        expCache := []
        numExp := fun _ => 0
        trainer2policies :=
          trainer2PoliciesOf (mpPolicy2Trainer (pd.map Prod.fst) numTrainers)
        history := [policyNames pd] }
  else
    Except.error "Only AbsCorePolicy instances can be managed by a policy manager."

/-- Whether a construction attempt returned normally. -/
def resultOk {α : Type} : Except String α → Bool
  | Except.ok _ => true
  | Except.error _ => false

/-- C8: the validation loop of the shared `AbsPolicyManager.__init__`
(executed by every variant before anything else) raises `ValueError` iff
some supplied policy is not an `AbsCorePolicy` instance; when every policy
is, construction does not raise this error. -/
theorem construction_validates_policies (pd : List (String × CorePolicy))
    (trig warm : Option (String → Nat)) (numTrainers : Nat) :
    ((∃ p ∈ pd, p.2.isAbsCorePolicy = false) →
      mkLocalManager pd trig warm =
        Except.error "Only AbsCorePolicy instances can be managed by a policy manager." ∧
      mkMultiProcessManager pd numTrainers trig warm =
        Except.error "Only AbsCorePolicy instances can be managed by a policy manager.") ∧
    ((∀ p ∈ pd, p.2.isAbsCorePolicy = true) →
      resultOk (mkLocalManager pd trig warm) = true ∧
      resultOk (mkMultiProcessManager pd numTrainers trig warm) = true) := by
  have hcond : ∀ (h : ∀ p ∈ pd, p.2.isAbsCorePolicy = true),
      pd.all (fun p => p.2.isAbsCorePolicy) = true := by
    intro h
    rw [List.all_eq_true]
    intro p hp
    simpa using h p hp
  constructor
  · rintro ⟨p, hp, hfalse⟩
    have hneg : ¬(pd.all (fun p => p.2.isAbsCorePolicy) = true) := by
      rw [List.all_eq_true]
      intro hall
      have := hall p hp
      rw [hfalse] at this
      exact Bool.false_ne_true (by simpa using this)
    constructor
    · unfold mkLocalManager
      rw [if_neg hneg]
    · unfold mkMultiProcessManager
      rw [if_neg hneg]
  · intro hall
    constructor
    · unfold mkLocalManager resultOk
      rw [if_pos (hcond hall)]
    · unfold mkMultiProcessManager resultOk
      rw [if_pos (hcond hall)]

/-- A policy object that is not an `AbsCorePolicy` instance. -/
def polNotCore : CorePolicy := ⟨0, 0, false, false⟩

/-- Witness for `construction_validates_policies`: a non-`AbsCorePolicy`
object is rejected at construction, a valid one is accepted. -/
theorem construction_validates_policies_witness :
    mkLocalManager [("A", polNotCore)] none none =
      Except.error "Only AbsCorePolicy instances can be managed by a policy manager." ∧
    resultOk (mkLocalManager [("A", polA)] none none) = true := by
  refine ⟨((construction_validates_policies [("A", polNotCore)] none none 1).1
    ⟨("A", polNotCore), by decide, by decide⟩).1, ?_⟩
  exact ((construction_validates_policies [("A", polA)] none none 1).2
    (by decide)).1

/-! ## C2 -/

/-- `MultiProcessPolicyManager({"A": polA}, num_trainers=1)` right after
construction: one trainer owning policy A. -/
def distExState : DistState :=
  { policyDict := [("A", polA)]
    updateTrigger := fun _ => 1
    warmup := fun _ => 1
    expCache := []
    numExp := fun _ => 0
    trainer2policies := trainer2PoliciesOf (mpPolicy2Trainer ["A"] 1)
    history := [policyNames [("A", polA)]] }

/-- `MultiProcessPolicyManager({"A": polA, "B": polA}, num_trainers=1)`
right after construction: one trainer owning policies A and B. -/
def distExState2 : DistState :=
  { policyDict := [("A", polA), ("B", polA)]
    updateTrigger := fun _ => 1
    warmup := fun _ => 1
    expCache := []
    numExp := fun _ => 0
    trainer2policies := trainer2PoliciesOf (mpPolicy2Trainer ["A", "B"] 1)
    history := [policyNames [("A", polA), ("B", polA)]] }

/-- C2 refutation: the distributed `update` raises `KeyError` whenever some
policy assigned to a trainer has no flushed batch this round, because the
per-trainer message comprehension indexes the plain dict `exp_to_send` with
every assigned policy.  On a freshly constructed manager, `update({})`
raises `KeyError` for policy A, and with policies A and B on one trainer,
`update({"A": batch(1)})` (A triggers, B does not) raises `KeyError` for B. -/
theorem dist_update_raises_keyerror :
    mkMultiProcessManager [("A", polA)] 1 none none = Except.ok distExState ∧
    distUpdate (fun _ => []) distExState [] = Except.error "KeyError: A" ∧
    mkMultiProcessManager [("A", polA), ("B", polA)] 1 none none =
      Except.ok distExState2 ∧
    distUpdate (fun _ => []) distExState2 [("A", ⟨1⟩)] =
      Except.error "KeyError: B" :=
  ⟨rfl, rfl, rfl, rfl⟩

/-! ## C6 -/

lemma mpPolicy2Trainer_getD (names : List String) (numTrainers : Nat) (i : Nat)
    (hi : i < names.length) :
    (mpPolicy2Trainer names numTrainers).getD i ("", "") =
      (names.getD i "", "TRAINER." ++ toString (i % numTrainers)) := by
  unfold mpPolicy2Trainer
  rw [List.getD_eq_get? , List.get?_map]
  rw [List.getD_eq_get? ]
  rcases hsome : names.enum.get? i with _ | p
  · rw [List.get?_eq_none] at hsome
    simp at hsome
    omega
  · have hp := List.get?_enum names i
    rw [hsome] at hp
    rcases hget : names.get? i with _ | a
    · rw [hget] at hp
      simp at hp
    · rw [hget] at hp
      simp at hp
      rw [hp]
      simp [hget]

lemma mnAssignLoop_getD (workers : List String) (numTrainers : Nat) :
    ∀ (names : List String) (idx i : Nat), idx < numTrainers →
      i < names.length →
      (mnAssignLoop workers numTrainers names idx).getD i ("", none) =
        (names.getD i "", workers.get? ((idx + i) % numTrainers)) := by
  intro names
  induction names with
  | nil => intro idx i _ hi; simp at hi
  | cons name rest ih =>
    intro idx i hidx hi
    cases i with
    | zero =>
      unfold mnAssignLoop
      simp [Nat.mod_eq_of_lt hidx]
    | succ j =>
      unfold mnAssignLoop
      have hj : j < rest.length := by simpa using hi
      have := ih ((idx + 1) % numTrainers) j (Nat.mod_lt _ (by omega)) hj
      rw [List.getD_cons_succ, this, List.getD_cons_succ]
      congr 2
      rw [Nat.mod_add_mod]
      congr 1
      omega

/-- C6: in both distributed variants the assignment computed at
construction is round-robin: the i-th policy in iteration order is assigned
`pool[i mod K]` over the K trainers — `f"TRAINER.{i % num_trainers}"` in the
multi-process variant and `workers[i % num_trainers]` in the multi-node
variant.  Both assignments are Lean functions of the constructor inputs
(policy iteration order, trainer count, worker pool), hence identical
across repeated constructions with identical inputs. -/
theorem round_robin_assignment (names workers : List String)
    (numTrainers i : Nat) (hK : 0 < numTrainers) (hi : i < names.length)
    (hw : numTrainers ≤ workers.length) :
    (mpPolicy2Trainer names numTrainers).getD i ("", "") =
      (names.getD i "", "TRAINER." ++ toString (i % numTrainers)) ∧
    (mnPolicy2Trainer names workers numTrainers).getD i ("", none) =
      (names.getD i "", some (workers.getD (i % numTrainers) "")) := by
  refine ⟨mpPolicy2Trainer_getD names numTrainers i hi, ?_⟩
  unfold mnPolicy2Trainer
  rw [mnAssignLoop_getD workers numTrainers names 0 i hK hi]
  have hlt : i % numTrainers < workers.length :=
    lt_of_lt_of_le (Nat.mod_lt _ hK) hw
  rw [Nat.zero_add, List.get?_eq_get hlt, List.getD_eq_getElem workers _ hlt]
  simp

/-- Witness for `round_robin_assignment`: with three policies and two
trainers, the third policy (index 2) goes to `TRAINER.0` / worker `w0`. -/
theorem round_robin_assignment_witness :
    (mpPolicy2Trainer ["a", "b", "c"] 2).getD 2 ("", "") =
      ("c", "TRAINER." ++ toString (2 % 2)) ∧
    (mnPolicy2Trainer ["a", "b", "c"] ["w0", "w1"] 2).getD 2 ("", none) =
      ("c", some (["w0", "w1"].getD (2 % 2) "")) :=
  round_robin_assignment ["a", "b", "c"] ["w0", "w1"] 2 2 (by decide)
    (by decide) (by decide)

/-! ## C3 -/

/-- A `LocalPolicyManager` state managing a single policy `P` with trigger
`trig`, warmup `warm`, accumulated-new-experience count `pending` and
version history `hist`. -/
def singlePolicyState (P : String) (pol : CorePolicy) (trig warm pending : Nat)
    (hist : List (Finset String)) : PMState :=
  { policyDict := [(P, pol)]
    updateTrigger := fun _ => trig
    warmup := fun _ => warm
    newExpCounter := fun n => if n = P then pending else 0
    history := hist }

lemma localUpdate_single_policy (f : Nat → Nat) (P : String)
    (T W st total pending b : Nat) (hist : List (Finset String)) :
    localUpdate f (singlePolicyState P ⟨st, total, true, false⟩ T W pending hist)
        [(P, ⟨b⟩)] =
      Except.ok (if T ≤ pending + b ∧ W ≤ total + b then
        singlePolicyState P ⟨f st, total + b, true, false⟩ T W 0 (hist ++ [insert P ∅])
      else
        singlePolicyState P ⟨st, total + b, true, false⟩ T W (pending + b) hist) := by
  unfold localUpdate localUpdateLoop localUpdateStep singlePolicyState CorePolicy.put
    setPolicy
  simp only [List.lookup_cons, beq_self_eq_true, if_pos rfl, if_true, List.map_cons,
    List.map_nil]
  by_cases hcond : T ≤ pending + b ∧ W ≤ total + b
  · simp only [if_pos hcond, localUpdateLoop, Bool.false_eq_true, Finset.insert_ne_empty,
      ite_false, ite_true, if_false, if_true, Except.ok.injEq, PMState.mk.injEq,
      true_and, and_true]
    funext n
    by_cases hn : n = P <;> simp [hn]
  · simp only [if_neg hcond, localUpdateLoop, ite_true, ite_false, if_true, if_false,
      Except.ok.injEq, PMState.mk.injEq, true_and, and_true]
    funext n
    by_cases hn : n = P <;> simp [hn]

/-- Outcome of the reference trigger/warmup recurrence: final policy state,
final pending count, final cumulative total, and number of `learn()` calls. -/
structure TriggerRunResult where
  policyState : Nat
  pending : Nat
  total : Nat
  fires : Nat
deriving DecidableEq, Repr

/-- Spec-side definition, following the words of the claim (not the code):
feeding batches of sizes `bs`, `learn()` fires exactly on the rounds where
the cumulative pending-since-last-update count reaches the trigger `T` and
the cumulative total count reaches the warmup `W`; the pending count resets
to 0 after each fire, the total never resets. -/
def specTriggerRun (f : Nat → Nat) (T W : Nat) :
    Nat → Nat → Nat → List Nat → TriggerRunResult
  | st, pending, total, [] => ⟨st, pending, total, 0⟩
  | st, pending, total, b :: rest =>
    if T ≤ pending + b ∧ W ≤ total + b then
      let r := specTriggerRun f T W (f st) 0 (total + b) rest
      ⟨r.policyState, r.pending, r.total, r.fires + 1⟩
    else
      specTriggerRun f T W st (pending + b) (total + b) rest

/-- A sequence of `LocalPolicyManager.update` calls. -/
def runLocalUpdates (f : Nat → Nat) :
    PMState → List (List (String × ExperienceSet)) → Except PMState PMState
  | s, [] => Except.ok s
  | s, r :: rest =>
    match localUpdate f s r with
    | Except.error e => Except.error e
    | Except.ok s1 => runLocalUpdates f s1 rest

lemma specTriggerRun_cons (f : Nat → Nat) (T W st pending total b : Nat)
    (rest : List Nat) :
    specTriggerRun f T W st pending total (b :: rest) =
      if T ≤ pending + b ∧ W ≤ total + b then
        ⟨(specTriggerRun f T W (f st) 0 (total + b) rest).policyState,
         (specTriggerRun f T W (f st) 0 (total + b) rest).pending,
         (specTriggerRun f T W (f st) 0 (total + b) rest).total,
         (specTriggerRun f T W (f st) 0 (total + b) rest).fires + 1⟩
      else specTriggerRun f T W st (pending + b) (total + b) rest := by
  rfl

lemma runLocalUpdates_single_policy (f : Nat → Nat) (P : String) (T W : Nat) :
    ∀ (bs : List Nat) (st pending total : Nat) (hist : List (Finset String)),
      runLocalUpdates f (singlePolicyState P ⟨st, total, true, false⟩ T W pending hist)
          (bs.map (fun b => [(P, ExperienceSet.mk b)])) =
        Except.ok (singlePolicyState P
          ⟨(specTriggerRun f T W st pending total bs).policyState,
            (specTriggerRun f T W st pending total bs).total, true, false⟩
          T W (specTriggerRun f T W st pending total bs).pending
          (hist ++ List.replicate (specTriggerRun f T W st pending total bs).fires
            (insert P ∅))) := by
  intro bs
  induction bs with
  | nil =>
    intro st pending total hist
    simp [runLocalUpdates, specTriggerRun]
  | cons b rest ih =>
    intro st pending total hist
    rw [List.map_cons]
    unfold runLocalUpdates
    rw [localUpdate_single_policy, specTriggerRun_cons]
    by_cases hcond : T ≤ pending + b ∧ W ≤ total + b
    · rw [if_pos hcond, if_pos hcond]
      dsimp only
      rw [ih (f st) 0 (total + b) (hist ++ [insert P ∅])]
      simp [List.append_assoc, List.replicate_succ]
    · rw [if_neg hcond, if_neg hcond]
      dsimp only
      rw [ih st (pending + b) (total + b) hist]

/-- `LocalPolicyManager({"P": pol}, update_trigger={"P": 10}, warmup={"P": 5})`
right after construction, with zero prior experience. -/
def c3Fresh : PMState :=
  singlePolicyState "P" ⟨0, 0, true, false⟩ 10 5 0
    [policyNames [("P", ⟨0, 0, true, false⟩)]]

/-- C3: for a policy with trigger T and warmup W and zero prior experience,
a sequence of `update()` calls feeding batches of sizes `bs` behaves exactly
as the reference recurrence `specTriggerRun`: `learn()` runs exactly on the
rounds where the pending count reaches T and the cumulative total reaches W
(each such round appends a `{P}` history entry and applies the learn step to
the policy state), and the pending count resets to 0 after each `learn()`.
In particular, for T=10, W=5 and batches [3, 4, 5], no round fires after
batches 1 and 2 (pending 3 and 7), and the round of batch 3 fires
(pending 12 ≥ 10, total 12 ≥ 5), leaving pending 0. -/
theorem trigger_warmup_correct :
    (∀ (f : Nat → Nat) (P : String) (T W : Nat) (bs : List Nat)
        (hist : List (Finset String)),
      runLocalUpdates f (singlePolicyState P ⟨0, 0, true, false⟩ T W 0 hist)
          (bs.map (fun b => [(P, ExperienceSet.mk b)])) =
        Except.ok (singlePolicyState P
          ⟨(specTriggerRun f T W 0 0 0 bs).policyState,
            (specTriggerRun f T W 0 0 0 bs).total, true, false⟩
          T W (specTriggerRun f T W 0 0 0 bs).pending
          (hist ++ List.replicate (specTriggerRun f T W 0 0 0 bs).fires
            (insert P ∅)))) ∧
    specTriggerRun Nat.succ 10 5 0 0 0 [3] = ⟨0, 3, 3, 0⟩ ∧
    specTriggerRun Nat.succ 10 5 0 0 0 [3, 4] = ⟨0, 7, 7, 0⟩ ∧
    specTriggerRun Nat.succ 10 5 0 0 0 [3, 4, 5] = ⟨1, 0, 12, 1⟩ ∧
    (runLocalUpdates Nat.succ c3Fresh
        [[("P", ⟨3⟩)], [("P", ⟨4⟩)], [("P", ⟨5⟩)]]).map
      (fun s => (s.history, s.newExpCounter "P")) =
      Except.ok ([policyNames [("P", (⟨0, 0, true, false⟩ : CorePolicy))],
        insert "P" ∅], 0) :=
  ⟨fun f P T W bs hist => runLocalUpdates_single_policy f P T W bs 0 0 0 hist,
    by decide, by decide, by decide, rfl⟩

end PolicyManager
